import Mathlib

/-!
Shallow embedding of the Caffe2 image-predictor plugin (`predict/predict.go`
and the builtin model manifests) and proofs about its specification.

Modelling conventions:
* Go `float32` arithmetic is modelled as exact rational arithmetic (`ℚ`);
  the claims under study concern data layout and the algebraic form of the
  normalization, not floating-point rounding.
* Go slices are modelled as `List`; `make([]float32, n)` is
  `List.replicate n 0` (Go fills new slices with zeros) and slice stores are `List.set`.
* Fallible Go calls (downloads, file reads, the native library) are passed
  in as explicit oracle values of `Except` type; a Go `error` result is an
  `Option String` (`none` = nil error).
* A Go panic (out-of-range index) is modelled by `Option`-valued lookup
  returning `none`.
-/

namespace Caffe2Predict

/-- An RGBA pixel as returned by Go's `image/color.Color.RGBA()`:
four 16-bit channel values (`0 ..= 0xffff`), alpha-premultiplied. -/
structure Pix where
  r : Nat
  g : Nat
  b : Nat
  a : Nat
deriving DecidableEq

/-- The resized image seen by the pixel loop of `Preprocess`: its bounds give
`width` and `height`, and `atPix x y` is the pixel the Go code reads as
`img.At(x+b.Min.X, y+b.Min.Y)` (the bounds offset is absorbed into `atPix`,
so coordinates here range over `[0, width) × [0, height)`). -/
structure Img where
  width : Nat
  height : Nat
  atPix : Nat → Nat → Pix

/-- The body of the pixel loop of `Preprocess` for one pixel `(x, y)`:

```go
r, g, b, _ := img.At(x+b.Min.X, y+b.Min.Y).RGBA()
res[y*w+x] = (float32(b>>8) - mean[2]) / scale
res[w*h+y*w+x] = (float32(g>>8) - mean[1]) / scale
res[2*w*h+y*w+x] = (float32(r>>8) - mean[0]) / scale
```
-/
def writePixel (img : Img) (mean : Fin 3 → ℚ) (scale : ℚ) (y x : Nat)
    (res : List ℚ) : List ℚ :=
  let w := img.width
  let h := img.height
  let p := img.atPix x y
  let res := res.set (y * w + x) ((((p.b >>> 8 : Nat) : ℚ) - mean 2) / scale)
  let res := res.set (w * h + y * w + x) ((((p.g >>> 8 : Nat) : ℚ) - mean 1) / scale)
  let res := res.set (2 * w * h + y * w + x) ((((p.r >>> 8 : Nat) : ℚ) - mean 0) / scale)
  res

/-- The inner loop `for x := 0; x < width; x++` of `Preprocess` for row `y`. -/
def processRow (img : Img) (mean : Fin 3 → ℚ) (scale : ℚ) (y : Nat)
    (res : List ℚ) : List ℚ :=
  (List.range img.width).foldl (fun acc x => writePixel img mean scale y x acc) res

/-- The loop `for y := start; y < end; y++ { ... }` of `Preprocess`: the body
`parallel.Line` runs on the half-open row range `[start, stop)`. -/
def processRows (img : Img) (mean : Fin 3 → ℚ) (scale : ℚ) (start stop : Nat)
    (res : List ℚ) : List ℚ :=
  (List.range' start (stop - start)).foldl
    (fun acc y => processRow img mean scale y acc) res

/-- The buffer computation of `Preprocess` after the resize step:
`res := make([]float32, 3*height*width)` followed by the pixel loop over all
rows (`parallel.Line(height, f)` covers exactly the rows `[0, height)`). -/
def preprocess (img : Img) (mean : Fin 3 → ℚ) (scale : ℚ) : List ℚ :=
  processRows img mean scale 0 img.height
    (List.replicate (3 * img.height * img.width) 0)

/-- A run of `parallel.Line(height, f)`: the row range is split into
consecutive chunks of the given sizes, `f(start, start+n)` being invoked for
each chunk in turn. Chunks write disjoint index sets, so the sequential
chunk-by-chunk composition below is the common denotation of every
interleaving of the parallel run. -/
def runChunks (img : Img) (mean : Fin 3 → ℚ) (scale : ℚ) :
    Nat → List Nat → List ℚ → List ℚ
  | _, [], res => res
  | start, n :: rest, res =>
      runChunks img mean scale (start + n) rest
        (processRows img mean scale start (start + n) res)

/-- The set (as a list) of buffer indices written by the pixel loop while
processing row `y`: for each `x < width` the three planar slots of `(x, y)`. -/
def rowWrites (img : Img) (y : Nat) : List Nat :=
  let w := img.width
  let h := img.height
  (List.range w).flatMap (fun x =>
    [y * w + x, w * h + y * w + x, 2 * w * h + y * w + x])

/-- The planar index of channel `c` (0 = blue plane, 1 = green plane,
2 = red plane) of pixel `(x, y)`, as computed by the stores in the loop body:
`c*(w*h) + y*w + x`. -/
def planeIdx (img : Img) (c y x : Nat) : Nat :=
  c * (img.width * img.height) + y * img.width + x

/-- The 8-bit channel value read for plane `c` of pixel `(x, y)`:
plane 0 stores blue, plane 1 green, plane 2 red. -/
def chanOf (img : Img) (c y x : Nat) : Nat :=
  match c with
  | 0 => (img.atPix x y).b >>> 8
  | 1 => (img.atPix x y).g >>> 8
  | _ => (img.atPix x y).r >>> 8

/-- The mean entry used for plane `c`: the blue plane subtracts `mean[2]`,
the green plane `mean[1]`, the red plane `mean[0]`. -/
def meanIdx : Nat → Fin 3
  | 0 => 2
  | 1 => 1
  | _ => 0

/-- The normalized value `(float32(channel>>8) - mean[meanIdx c]) / scale`
that the loop stores at `planeIdx c y x`. -/
def outVal (img : Img) (mean : Fin 3 → ℚ) (scale : ℚ) (c y x : Nat) : ℚ :=
  (((chanOf img c y x : Nat) : ℚ) - mean (meanIdx c)) / scale

/-- One input entry of a model manifest: its `type` field and the
`parameters.dimensions` / `parameters.mean` lists (as in the builtin
manifests `ResNet269-v2.yml` and `ResNeXt101-32x4d.yml`). -/
structure ModelInput where
  typ : String
  dimensions : List Int
  mean : List ℚ
deriving DecidableEq

/-- The part of a `dlframework.ModelManifest` the predictor reads through
`GetInputs`. -/
structure ModelManifest where
  inputs : List ModelInput
deriving DecidableEq

/-- Modelled from the spec: `GetImageDimensions` is defined in the external
`dlframework` predictor base, not in this repository. The spec describes the
manifest as carrying "the expected input tensor shape" and names no
transformation of it, so the model returns the first input's declared
`dimensions` list unchanged. -/
def getImageDimensions (m : ModelManifest) : Option (List Int) :=
  (m.inputs.head?).map (fun i => i.dimensions)

/-- The two size arguments of the resize call in `Preprocess`:
`raiimage.Resize(ctx, inputImage, int(imageDims[2]), int(imageDims[3]))`.
An out-of-range index (a Go runtime panic) is `none`. -/
def resizeArgs (dims : List Int) : Option Int × Option Int :=
  (dims[2]?, dims[3]?)

/-- The `inputs[0].parameters.dimensions` entry of the builtin manifest
`ResNet269-v2.yml`: `dimensions: [3, 224, 224]`. -/
def resnet269Manifest : ModelManifest :=
  { inputs := [{ typ := "image"
               , dimensions := [3, 224, 224]
               , mean := [122772 / 1000, 115947 / 1000, 10298 / 100] }] }

/-- The fields of the manifest that `Download` reads through the getters
`GetGraphUrl`/`GetGraphPath`/..., together with the three checksum fields the
manifest also carries (`graph_checksum`, `weights_checksum`,
`features_checksum`), which `Download` never reads. -/
structure ManifestPaths where
  graphUrl : String
  graphPath : String
  weightsUrl : String
  weightsPath : String
  featuresUrl : String
  featuresPath : String
  graphChecksum : String
  weightsChecksum : String
  featuresChecksum : String
deriving DecidableEq

/-- The Download step: call `downloadmanager.DownloadFile(url, path)` for the graph,
then the weights, then the features file, returning on the first error. `dl`
is the downloader; the result is the list of `(url, path)` calls made, in
order, together with the returned Go `error` (`none` = nil). -/
def download (dl : String → String → Except String String) (m : ManifestPaths) :
    List (String × String) × Option String :=
  match dl m.graphUrl m.graphPath with
  | .error e => ([(m.graphUrl, m.graphPath)], some e)
  | .ok _ =>
    match dl m.weightsUrl m.weightsPath with
    | .error e => ([(m.graphUrl, m.graphPath), (m.weightsUrl, m.weightsPath)], some e)
    | .ok _ =>
      match dl m.featuresUrl m.featuresPath with
      | .error e =>
          ([(m.graphUrl, m.graphPath), (m.weightsUrl, m.weightsPath),
            (m.featuresUrl, m.featuresPath)], some e)
      | .ok _ =>
          ([(m.graphUrl, m.graphPath), (m.weightsUrl, m.weightsPath),
            (m.featuresUrl, m.featuresPath)], none)

/-- A resolved `dlframework.FrameworkManifest` (only its identity matters). -/
structure Framework where
  name : String
deriving DecidableEq

/-- The state `Load` builds: framework, model and work directory. -/
structure LoadedPredictor where
  framework : Framework
  model : ModelManifest
  workDir : String
deriving DecidableEq

/-- The Load step: resolve the framework, compute the work directory (both external
calls, passed as oracles `rf` and `wd`), propagating either error; on success
return the populated `ImagePredictor`. -/
def load (rf : Except String Framework) (wd : Except String String)
    (model : ModelManifest) : Except String LoadedPredictor :=
  match rf with
  | .error e => .error e
  | .ok fw =>
    match wd with
    | .error e => .error e
    | .ok dir => .ok { framework := fw, model := model, workDir := dir }

/-- Lowercasing as `strings.ToLower` does on the input type field: lowercase every
character (the type fields at stake are plain ASCII). -/
def strToLower (s : String) : String := ⟨s.data.map Char.toLower⟩

/-- The New constructor: reject unless the manifest has exactly one input whose lowercased
type is `"image"`, then delegate to `Load`. -/
def new (rf : Except String Framework) (wd : Except String String)
    (model : ModelManifest) : Except String LoadedPredictor :=
  if h : model.inputs.length = 1 then
    if strToLower (model.inputs.get ⟨0, by omega⟩).typ = "image" then
      load rf wd model
    else .error "input type not supported"
  else .error "number of inputs not supported"

/-- One raw prediction returned by the native `gocaffe2` predictor:
a class index (Go `int`) and a probability (Go `float32`). -/
structure RawPrediction where
  index : Int
  probability : ℚ
deriving DecidableEq

/-- One `dlframework.PredictionFeature` built by `Predict`:
`Index` (Go `int64`), `Name` and `Probability`. -/
structure PredictionFeature where
  index : Int
  name : String
  probability : ℚ
deriving DecidableEq

/-- The label lookup `p.features[pred.Index]` of `Predict`: a Go slice index
with no bounds check, so a negative or too-large index is a runtime panic,
modelled as `none`. -/
def lookupFeature (features : List String) (i : Int) : Option String :=
  if h : 0 ≤ i ∧ i.toNat < features.length then
    some (features.get ⟨i.toNat, h.2⟩)
  else none

/-- The output loop of `Predict`: one `PredictionFeature` per raw prediction,
in order, with `Index := int64(pred.Index)`, `Name := p.features[pred.Index]`
and `Probability := pred.Probability`. `none` models the panic on the first
out-of-range label lookup. -/
def buildFeatures (features : List String) :
    List RawPrediction → Option (List PredictionFeature)
  | [] => some []
  | pred :: rest =>
    match lookupFeature features pred.index with
    | none => none
    | some nm =>
      match buildFeatures features rest with
      | none => none
      | some out =>
          some ({ index := pred.index, name := nm
                , probability := pred.probability } :: out)

/-- The scanner loop of `loadPredictor`: starting from a nil slice, append
each line of the features file in file order. -/
def loadFeatures (lines : List String) : List String :=
  lines.foldl (fun acc line => acc ++ [line]) []

/-- A native `gocaffe2.Predictor` session handle (only its identity matters). -/
structure NativePredictor where
  handle : Nat
deriving DecidableEq

/-- The mutable fields of `ImagePredictor` that `loadPredictor` touches. -/
structure PredictorState where
  features : List String
  predictor : Option NativePredictor
  inputDims : List Int
deriving DecidableEq

/-- The environment of one `loadPredictor` call: the lines of the features
file at `GetFeaturesPath()` (or a read error), the result of
`GetImageDimensions()`, and the result of
`gocaffe2.New(graphPath, weightsPath)`. -/
structure LoadEnv where
  featuresFileLines : Except String (List String)
  imageDimensions : Except String (List Int)
  caffe2New : Except String NativePredictor

/-- The loadPredictor step: return nil at once when `p.predictor != nil`; otherwise
read the features file into `p.features`, fetch `p.inputDims`, create the
native predictor and store it in `p.predictor`. The receiver is a pointer, so
fields assigned before a failure stay assigned: the result is the updated
state together with the returned Go `error` (`none` = nil). -/
def loadPredictor (env : LoadEnv) (p : PredictorState) :
    PredictorState × Option String :=
  if p.predictor.isSome then (p, none)
  else
    match env.featuresFileLines with
    | .error e => (p, some ("cannot read features file: " ++ e))
    | .ok lines =>
      let p1 := { p with features := loadFeatures lines }
      match env.imageDimensions with
      | .error e => (p1, some e)
      | .ok dims =>
        let p2 := { p1 with inputDims := dims }
        match env.caffe2New with
        | .error e => (p2, some e)
        | .ok np => ({ p2 with predictor := some np }, none)

/-- A concrete 1×2 test image for witnesses. -/
def imgW : Img :=
  { width := 1
  , height := 2
  , atPix := fun _ y => { r := 4096, g := 8192, b := 256 * y + 513, a := 65535 } }

/-- A concrete per-channel mean for witnesses. -/
def meanW : Fin 3 → ℚ := fun c => (c : ℚ)

/-- A concrete scale for witnesses. -/
def scaleW : ℚ := 2

/-- A concrete downloader for witnesses: fails on the weights URL. -/
def dlW : String → String → Except String String := fun u _ =>
  if u = "wu" then .error "boom" else .ok ""

/-- A concrete manifest-paths record for witnesses. -/
def mPathsW : ManifestPaths :=
  { graphUrl := "gu", graphPath := "gp"
  , weightsUrl := "wu", weightsPath := "wp"
  , featuresUrl := "fu", featuresPath := "fp"
  , graphChecksum := "gc", weightsChecksum := "wc", featuresChecksum := "fc" }

/-- A concrete load environment for witnesses. -/
def envW : LoadEnv :=
  { featuresFileLines := .ok ["tench", "goldfish"]
  , imageDimensions := .ok [3, 224, 224]
  , caffe2New := .ok { handle := 7 } }

/-- A fresh predictor state (no native session yet) for witnesses. -/
def pFreshW : PredictorState :=
  { features := [], predictor := none, inputDims := [] }

/-- An already-loaded predictor state for witnesses. -/
def pLoadedW : PredictorState :=
  { features := ["tench", "goldfish"]
  , predictor := some { handle := 7 }
  , inputDims := [3, 224, 224] }

/-- A concrete single image input for witnesses (type field as manifests
capitalize it). -/
def inputW : ModelInput :=
  { typ := "Image", dimensions := [3, 224, 224], mean := [] }

/-- A concrete one-input manifest for witnesses. -/
def manifestW : ModelManifest := { inputs := [inputW] }

/-- A concrete resolved framework for witnesses. -/
def fwW : Framework := { name := "caffe2" }

theorem length_writePixel (img : Img) (mean : Fin 3 → ℚ) (scale : ℚ)
    (y x : Nat) (res : List ℚ) :
    (writePixel img mean scale y x res).length = res.length := by
  simp [writePixel]

theorem length_foldl_writePixel (img : Img) (mean : Fin 3 → ℚ) (scale : ℚ)
    (y : Nat) (l : List Nat) (res : List ℚ) :
    (l.foldl (fun acc x => writePixel img mean scale y x acc) res).length =
      res.length := by
  induction l generalizing res with
  | nil => rfl
  | cons a t ih => simp only [List.foldl_cons]; rw [ih, length_writePixel]

theorem length_processRow (img : Img) (mean : Fin 3 → ℚ) (scale : ℚ)
    (y : Nat) (res : List ℚ) :
    (processRow img mean scale y res).length = res.length :=
  length_foldl_writePixel img mean scale y _ res

theorem length_foldl_processRow (img : Img) (mean : Fin 3 → ℚ) (scale : ℚ)
    (l : List Nat) (res : List ℚ) :
    (l.foldl (fun acc y => processRow img mean scale y acc) res).length =
      res.length := by
  induction l generalizing res with
  | nil => rfl
  | cons a t ih => simp only [List.foldl_cons]; rw [ih, length_processRow]

theorem length_processRows (img : Img) (mean : Fin 3 → ℚ) (scale : ℚ)
    (start stop : Nat) (res : List ℚ) :
    (processRows img mean scale start stop res).length = res.length :=
  length_foldl_processRow img mean scale _ res

theorem length_preprocess (img : Img) (mean : Fin 3 → ℚ) (scale : ℚ) :
    (preprocess img mean scale).length = 3 * img.height * img.width := by
  rw [preprocess, length_processRows, List.length_replicate]

theorem rowcol_lt {w h y x : Nat} (hx : x < w) (hy : y < h) :
    y * w + x < w * h := by
  have h1 : (y + 1) * w ≤ h * w := Nat.mul_le_mul_right w hy
  have h2 : (y + 1) * w = y * w + w := by ring
  have h3 : h * w = w * h := by ring
  omega

theorem addMul_inj {q a1 b1 a2 b2 : Nat} (hb1 : b1 < q) (hb2 : b2 < q)
    (h : a1 * q + b1 = a2 * q + b2) : a1 = a2 ∧ b1 = b2 := by
  have hq : 0 < q := Nat.lt_of_le_of_lt (Nat.zero_le b1) hb1
  have e1 : (q * a1 + b1) % q = b1 % q := Nat.mul_add_mod q a1 b1
  have e2 : (q * a2 + b2) % q = b2 % q := Nat.mul_add_mod q a2 b2
  have hc1 : q * a1 = a1 * q := by ring
  have hc2 : q * a2 = a2 * q := by ring
  rw [hc1, Nat.mod_eq_of_lt hb1] at e1
  rw [hc2, Nat.mod_eq_of_lt hb2] at e2
  rw [h, e2] at e1
  have ha : a1 * q = a2 * q := by omega
  exact ⟨Nat.eq_of_mul_eq_mul_right hq ha, e1.symm⟩

theorem planeIdx_inj (img : Img) {c1 y1 x1 c2 y2 x2 : Nat}
    (hc1 : c1 < 3) (hy1 : y1 < img.height) (hx1 : x1 < img.width)
    (hc2 : c2 < 3) (hy2 : y2 < img.height) (hx2 : x2 < img.width)
    (h : planeIdx img c1 y1 x1 = planeIdx img c2 y2 x2) :
    c1 = c2 ∧ y1 = y2 ∧ x1 = x2 := by
  have hr1 : y1 * img.width + x1 < img.width * img.height := rowcol_lt hx1 hy1
  have hr2 : y2 * img.width + x2 < img.width * img.height := rowcol_lt hx2 hy2
  simp only [planeIdx, Nat.add_assoc] at h
  have h1 := addMul_inj hr1 hr2 h
  have h2 := addMul_inj hx1 hx2 h1.2
  exact ⟨h1.1, h2⟩

theorem planeIdx_lt (img : Img) {c y x : Nat} (hc : c < 3)
    (hy : y < img.height) (hx : x < img.width) :
    planeIdx img c y x < 3 * img.height * img.width := by
  have h1 : y * img.width + x < img.width * img.height := rowcol_lt hx hy
  have h2 : c * (img.width * img.height) ≤ 2 * (img.width * img.height) :=
    Nat.mul_le_mul_right _ (by omega)
  have h3 : 3 * img.height * img.width = 3 * (img.width * img.height) := by ring
  simp only [planeIdx]
  omega

theorem planeIdx_zero (img : Img) (y x : Nat) :
    planeIdx img 0 y x = y * img.width + x := by
  simp [planeIdx]

theorem planeIdx_one (img : Img) (y x : Nat) :
    planeIdx img 1 y x = img.width * img.height + y * img.width + x := by
  simp [planeIdx]

theorem planeIdx_two (img : Img) (y x : Nat) :
    planeIdx img 2 y x = 2 * img.width * img.height + y * img.width + x := by
  simp only [planeIdx]
  ring

theorem getElem?_writePixel_ne (img : Img) (mean : Fin 3 → ℚ) (scale : ℚ)
    {y x i : Nat}
    (h0 : i ≠ y * img.width + x)
    (h1 : i ≠ img.width * img.height + y * img.width + x)
    (h2 : i ≠ 2 * img.width * img.height + y * img.width + x)
    (res : List ℚ) :
    (writePixel img mean scale y x res)[i]? = res[i]? := by
  simp only [writePixel]
  rw [List.getElem?_set_ne (by omega), List.getElem?_set_ne (by omega),
    List.getElem?_set_ne (by omega)]

theorem getElem?_writePixel_self (img : Img) (mean : Fin 3 → ℚ) (scale : ℚ)
    {c y x : Nat} (hc : c < 3) (hy : y < img.height) (hx : x < img.width)
    (res : List ℚ) (hlen : planeIdx img c y x < res.length) :
    (writePixel img mean scale y x res)[planeIdx img c y x]? =
      some (outVal img mean scale c y x) := by
  have hw : 0 < img.width := by omega
  have hh : 0 < img.height := by omega
  have hwh : 0 < img.width * img.height := Nat.mul_pos hw hh
  have ha : 2 * img.width * img.height = 2 * (img.width * img.height) := by ring
  obtain rfl | rfl | rfl : c = 0 ∨ c = 1 ∨ c = 2 := by omega
  · rw [planeIdx_zero] at hlen ⊢
    simp only [writePixel]
    rw [List.getElem?_set_ne (by omega), List.getElem?_set_ne (by omega),
      List.getElem?_set_self hlen]
    simp [outVal, chanOf, meanIdx]
  · rw [planeIdx_one] at hlen ⊢
    simp only [writePixel]
    rw [List.getElem?_set_ne (by omega),
      List.getElem?_set_self (by rw [List.length_set]; omega)]
    simp [outVal, chanOf, meanIdx]
  · rw [planeIdx_two] at hlen ⊢
    simp only [writePixel]
    rw [List.getElem?_set_self (by rw [List.length_set, List.length_set]; omega)]
    simp [outVal, chanOf, meanIdx]

theorem getElem?_foldl_writePixel_ne (img : Img) (mean : Fin 3 → ℚ) (scale : ℚ)
    (y : Nat) {i : Nat} (l : List Nat) (res : List ℚ)
    (hfar : ∀ x ∈ l, i ≠ y * img.width + x ∧
      i ≠ img.width * img.height + y * img.width + x ∧
      i ≠ 2 * img.width * img.height + y * img.width + x) :
    (l.foldl (fun acc x => writePixel img mean scale y x acc) res)[i]? =
      res[i]? := by
  induction l generalizing res with
  | nil => rfl
  | cons a t ih =>
    have ha := hfar a (List.mem_cons_self a t)
    simp only [List.foldl_cons]
    rw [ih _ (fun x hx => hfar x (List.mem_cons_of_mem a hx)),
      getElem?_writePixel_ne img mean scale ha.1 ha.2.1 ha.2.2]

theorem getElem?_processRow_ne (img : Img) (mean : Fin 3 → ℚ) (scale : ℚ)
    (y : Nat) {i : Nat} (res : List ℚ)
    (hfar : ∀ x, x < img.width → ∀ c, c < 3 → i ≠ planeIdx img c y x) :
    (processRow img mean scale y res)[i]? = res[i]? := by
  rw [processRow]
  refine getElem?_foldl_writePixel_ne img mean scale y _ res (fun x hx => ?_)
  rw [List.mem_range] at hx
  refine ⟨?_, ?_, ?_⟩
  · rw [← planeIdx_zero img y x]; exact hfar x hx 0 (by omega)
  · rw [← planeIdx_one img y x]; exact hfar x hx 1 (by omega)
  · rw [← planeIdx_two img y x]; exact hfar x hx 2 (by omega)

theorem getElem?_processRow_self (img : Img) (mean : Fin 3 → ℚ) (scale : ℚ)
    {c y x : Nat} (hc : c < 3) (hy : y < img.height) (hx : x < img.width)
    (res : List ℚ) (hlen : res.length = 3 * img.height * img.width) :
    (processRow img mean scale y res)[planeIdx img c y x]? =
      some (outVal img mean scale c y x) := by
  have hsum : img.width - x + x = img.width := by omega
  have hsucc : img.width - x = (img.width - x - 1) + 1 := by omega
  have hsplit : List.range img.width =
      List.range' 0 x ++ x :: List.range' (x + 1) (img.width - x - 1) := by
    rw [List.range_eq_range']
    have e1 : List.range' 0 x ++ List.range' (0 + x) (img.width - x) =
        List.range' 0 (img.width - x + x) := List.range'_append_1 0 x _
    rw [Nat.zero_add, hsum] at e1
    have e2 : List.range' x (img.width - x) =
        x :: List.range' (x + 1) (img.width - x - 1) := by
      nth_rewrite 1 [hsucc]
      exact List.range'_succ x (img.width - x - 1) 1
    rw [← e1, e2]
  rw [processRow, hsplit, List.foldl_append, List.foldl_cons]
  rw [getElem?_foldl_writePixel_ne img mean scale y _ _ ?later]
  case later =>
    intro x2 hx2
    rw [List.mem_range'_1] at hx2
    have hx2w : x2 < img.width := by omega
    have hne : ∀ c2, c2 < 3 → planeIdx img c y x ≠ planeIdx img c2 y x2 := by
      intro c2 hc2 heq
      have := planeIdx_inj img hc hy hx hc2 hy hx2w heq
      omega
    refine ⟨?_, ?_, ?_⟩
    · rw [← planeIdx_zero img y x2]; exact hne 0 (by omega)
    · rw [← planeIdx_one img y x2]; exact hne 1 (by omega)
    · rw [← planeIdx_two img y x2]; exact hne 2 (by omega)
  rw [getElem?_writePixel_self img mean scale hc hy hx _ ?len]
  case len =>
    rw [length_foldl_writePixel, hlen]
    exact planeIdx_lt img hc hy hx

theorem getElem?_foldl_processRow_ne (img : Img) (mean : Fin 3 → ℚ) (scale : ℚ)
    {i : Nat} (l : List Nat) (res : List ℚ)
    (hfar : ∀ y ∈ l, ∀ x, x < img.width → ∀ c, c < 3 → i ≠ planeIdx img c y x) :
    (l.foldl (fun acc y => processRow img mean scale y acc) res)[i]? =
      res[i]? := by
  induction l generalizing res with
  | nil => rfl
  | cons a t ih =>
    simp only [List.foldl_cons]
    rw [ih _ (fun y hy => hfar y (List.mem_cons_of_mem a hy)),
      getElem?_processRow_ne img mean scale a res
        (hfar a (List.mem_cons_self a t))]

theorem getElem?_processRows_self (img : Img) (mean : Fin 3 → ℚ) (scale : ℚ)
    {s stop c y x : Nat} (hc : c < 3) (hx : x < img.width)
    (hy1 : s ≤ y) (hy2 : y < stop) (hstop : stop ≤ img.height)
    (res : List ℚ) (hlen : res.length = 3 * img.height * img.width) :
    (processRows img mean scale s stop res)[planeIdx img c y x]? =
      some (outVal img mean scale c y x) := by
  have hy : y < img.height := by omega
  have hsum : stop - y + (y - s) = stop - s := by omega
  have hmid : s + (y - s) = y := by omega
  have hsucc : stop - y = (stop - y - 1) + 1 := by omega
  have hsplit : List.range' s (stop - s) =
      List.range' s (y - s) ++ y :: List.range' (y + 1) (stop - y - 1) := by
    have e1 : List.range' s (y - s) ++ List.range' (s + (y - s)) (stop - y) =
        List.range' s (stop - y + (y - s)) := List.range'_append_1 s (y - s) _
    rw [hmid, hsum] at e1
    have e2 : List.range' y (stop - y) =
        y :: List.range' (y + 1) (stop - y - 1) := by
      nth_rewrite 1 [hsucc]
      exact List.range'_succ y (stop - y - 1) 1
    rw [← e1, e2]
  rw [processRows, hsplit, List.foldl_append, List.foldl_cons]
  rw [getElem?_foldl_processRow_ne img mean scale _ _ ?later]
  case later =>
    intro y2 hy2 x2 hx2 c2 hc2 heq
    rw [List.mem_range'_1] at hy2
    have hy2h : y2 < img.height := by omega
    have := planeIdx_inj img hc hy hx hc2 hy2h hx2 heq
    omega
  exact getElem?_processRow_self img mean scale hc hy hx _
    (by rw [length_foldl_processRow, hlen])

theorem getElem?_preprocess_self (img : Img) (mean : Fin 3 → ℚ) (scale : ℚ)
    {c y x : Nat} (hc : c < 3) (hy : y < img.height) (hx : x < img.width) :
    (preprocess img mean scale)[planeIdx img c y x]? =
      some (outVal img mean scale c y x) := by
  rw [preprocess]
  exact getElem?_processRows_self img mean scale hc hx (Nat.zero_le y) hy
    (Nat.le_refl _) _ (List.length_replicate _ _)

theorem planeIdx_decode (img : Img) {i : Nat}
    (hi : i < 3 * img.height * img.width) :
    i / (img.width * img.height) < 3 ∧
    i % (img.width * img.height) / img.width < img.height ∧
    i % (img.width * img.height) % img.width < img.width ∧
    i = planeIdx img (i / (img.width * img.height))
      (i % (img.width * img.height) / img.width)
      (i % (img.width * img.height) % img.width) := by
  have hw : 0 < img.width := by
    rcases Nat.eq_zero_or_pos img.width with h | h
    · rw [h] at hi; omega
    · exact h
  have hh : 0 < img.height := by
    rcases Nat.eq_zero_or_pos img.height with h | h
    · rw [h] at hi; simp at hi
    · exact h
  have hwh : 0 < img.width * img.height := Nat.mul_pos hw hh
  refine ⟨?_, ?_, ?_, ?_⟩
  · refine (Nat.div_lt_iff_lt_mul hwh).mpr ?_
    have e : 3 * (img.width * img.height) = 3 * img.height * img.width := by ring
    omega
  · refine (Nat.div_lt_iff_lt_mul hw).mpr ?_
    have h1 : i % (img.width * img.height) < img.width * img.height :=
      Nat.mod_lt i hwh
    have e : img.height * img.width = img.width * img.height := by ring
    omega
  · exact Nat.mod_lt _ hw
  · have e1 : img.width * img.height * (i / (img.width * img.height)) +
        i % (img.width * img.height) = i := Nat.div_add_mod i _
    have e2 : img.width * (i % (img.width * img.height) / img.width) +
        i % (img.width * img.height) % img.width =
        i % (img.width * img.height) := Nat.div_add_mod _ img.width
    have b1 : img.width * img.height * (i / (img.width * img.height)) =
        i / (img.width * img.height) * (img.width * img.height) := by ring
    have b2 : img.width * (i % (img.width * img.height) / img.width) =
        i % (img.width * img.height) / img.width * img.width := by ring
    simp only [planeIdx]
    omega

theorem planeIdx_surj (img : Img) {i : Nat}
    (hi : i < 3 * img.height * img.width) :
    ∃ c y x, c < 3 ∧ y < img.height ∧ x < img.width ∧
      i = planeIdx img c y x := by
  obtain ⟨hc, hy, hx, heq⟩ := planeIdx_decode img hi
  exact ⟨_, _, _, hc, hy, hx, heq⟩

theorem mem_rowWrites (img : Img) (y i : Nat) :
    i ∈ rowWrites img y ↔
      ∃ c x, c < 3 ∧ x < img.width ∧ i = planeIdx img c y x := by
  simp only [rowWrites, List.mem_flatMap, List.mem_range, List.mem_cons,
    List.mem_singleton, List.not_mem_nil, or_false]
  constructor
  · rintro ⟨x, hx, h | h | h⟩
    · exact ⟨0, x, by omega, hx, by rw [planeIdx_zero]; exact h⟩
    · exact ⟨1, x, by omega, hx, by rw [planeIdx_one]; exact h⟩
    · exact ⟨2, x, by omega, hx, by rw [planeIdx_two]; exact h⟩
  · rintro ⟨c, x, hc, hx, rfl⟩
    refine ⟨x, hx, ?_⟩
    obtain rfl | rfl | rfl : c = 0 ∨ c = 1 ∨ c = 2 := by omega
    · rw [planeIdx_zero]; exact Or.inl rfl
    · rw [planeIdx_one]; exact Or.inr (Or.inl rfl)
    · rw [planeIdx_two]; exact Or.inr (Or.inr rfl)

theorem processRows_append (img : Img) (mean : Fin 3 → ℚ) (scale : ℚ)
    {a b c : Nat} (hab : a ≤ b) (hbc : b ≤ c) (res : List ℚ) :
    processRows img mean scale b c (processRows img mean scale a b res) =
      processRows img mean scale a c res := by
  simp only [processRows]
  rw [← List.foldl_append]
  have e1 : List.range' a (b - a) ++ List.range' (a + (b - a)) (c - b) =
      List.range' a ((c - b) + (b - a)) := List.range'_append_1 a (b - a) _
  rw [show a + (b - a) = b by omega] at e1
  rw [e1, show (c - b) + (b - a) = c - a by omega]

theorem runChunks_eq (img : Img) (mean : Fin 3 → ℚ) (scale : ℚ)
    (sizes : List Nat) :
    ∀ (start : Nat) (res : List ℚ),
    runChunks img mean scale start sizes res =
      processRows img mean scale start (start + sizes.sum) res := by
  induction sizes with
  | nil =>
    intro start res
    simp only [runChunks, List.sum_nil, Nat.add_zero, processRows,
      Nat.sub_self, List.range', List.foldl_nil]
  | cons n rest ih =>
    intro start res
    rw [runChunks, ih]
    rw [processRows_append img mean scale (Nat.le_add_right start n)
      (Nat.le_add_right _ _)]
    rw [show start + n + rest.sum = start + (n :: rest).sum by
      simp [List.sum_cons]; omega]

/-- Claim C1: after the resize step, every element of the float buffer
returned by `Preprocess` is the pixel's 8-bit channel value with that
channel's per-channel mean subtracted and the result divided by the
configured scale: the blue plane uses `mean[2]`, the green plane `mean[1]`,
the red plane `mean[0]`, and all three planes are divided by the single
scale value. -/
theorem preprocess_normalizes_every_element (img : Img) (mean : Fin 3 → ℚ)
    (scale : ℚ) (i : Nat) (hi : i < 3 * img.height * img.width) :
    (preprocess img mean scale)[i]? =
      some (((chanOf img (i / (img.width * img.height))
          (i % (img.width * img.height) / img.width)
          (i % (img.width * img.height) % img.width) : ℚ) -
        mean (meanIdx (i / (img.width * img.height)))) / scale) := by
  obtain ⟨hc, hy, hx, heq⟩ := planeIdx_decode img hi
  have hv := getElem?_preprocess_self img mean scale hc hy hx
  rw [← heq] at hv
  exact hv

theorem preprocess_normalizes_every_element_witness :
    (preprocess imgW meanW scaleW)[(0 : Nat)]? =
      some (((chanOf imgW (0 / (imgW.width * imgW.height))
          (0 % (imgW.width * imgW.height) / imgW.width)
          (0 % (imgW.width * imgW.height) % imgW.width) : ℚ) -
        meanW (meanIdx (0 / (imgW.width * imgW.height)))) / scaleW) :=
  preprocess_normalizes_every_element imgW meanW scaleW 0 (by decide)

/-- Claim C2: `Preprocess` returns a flat buffer of length exactly
`3*height*width` laid out channel-planar (C×H×W): plane 0 (indices `y*w+x`)
holds the blue channel, plane 1 (indices `w*h+y*w+x`) the green channel and
plane 2 (indices `2*w*h+y*w+x`) the red channel, i.e. BGR plane order. -/
theorem preprocess_bgr_planar_layout (img : Img) (mean : Fin 3 → ℚ)
    (scale : ℚ) :
    (preprocess img mean scale).length = 3 * img.height * img.width ∧
    ∀ y x, y < img.height → x < img.width →
      (preprocess img mean scale)[y * img.width + x]? =
        some ((((img.atPix x y).b >>> 8 : ℚ) - mean 2) / scale) ∧
      (preprocess img mean scale)[img.width * img.height + y * img.width + x]? =
        some ((((img.atPix x y).g >>> 8 : ℚ) - mean 1) / scale) ∧
      (preprocess img mean scale)[2 * img.width * img.height + y * img.width + x]? =
        some ((((img.atPix x y).r >>> 8 : ℚ) - mean 0) / scale) := by
  refine ⟨length_preprocess img mean scale, fun y x hy hx => ⟨?_, ?_, ?_⟩⟩
  · rw [← planeIdx_zero img y x]
    exact @getElem?_preprocess_self img mean scale 0 y x (by omega) hy hx
  · rw [← planeIdx_one img y x]
    exact @getElem?_preprocess_self img mean scale 1 y x (by omega) hy hx
  · rw [← planeIdx_two img y x]
    exact @getElem?_preprocess_self img mean scale 2 y x (by omega) hy hx

theorem preprocess_bgr_planar_layout_witness :
    (preprocess imgW meanW scaleW)[0 * imgW.width + 0]? =
      some ((((imgW.atPix 0 0).b >>> 8 : ℚ) - meanW 2) / scaleW) ∧
    (preprocess imgW meanW scaleW)[imgW.width * imgW.height + 0 * imgW.width + 0]? =
      some ((((imgW.atPix 0 0).g >>> 8 : ℚ) - meanW 1) / scaleW) ∧
    (preprocess imgW meanW scaleW)[2 * imgW.width * imgW.height + 0 * imgW.width + 0]? =
      some ((((imgW.atPix 0 0).r >>> 8 : ℚ) - meanW 0) / scaleW) :=
  (preprocess_bgr_planar_layout imgW meanW scaleW).2 0 0 (by decide) (by decide)

/-- Claim C6: the row-partitioned parallel pixel loop of `Preprocess` is
equivalent to a fully sequential loop: every output index is written by
exactly one row (every index below `3*height*width` belongs to some row's
write set and distinct rows write disjoint index sets), and the buffer
produced by running the loop body over any chunking of the rows equals the
buffer produced by processing all rows sequentially in order. -/
theorem row_partition_equiv_sequential (img : Img) (mean : Fin 3 → ℚ)
    (scale : ℚ) :
    (∀ i, i < 3 * img.height * img.width →
      ∃ y, y < img.height ∧ i ∈ rowWrites img y) ∧
    (∀ y1 y2, y1 < img.height → y2 < img.height → y1 ≠ y2 →
      ∀ i, i ∈ rowWrites img y1 → i ∉ rowWrites img y2) ∧
    (∀ sizes : List Nat, sizes.sum = img.height →
      runChunks img mean scale 0 sizes
          (List.replicate (3 * img.height * img.width) 0) =
        preprocess img mean scale) := by
  refine ⟨?_, ?_, ?_⟩
  · intro i hi
    obtain ⟨c, y, x, hc, hy, hx, rfl⟩ := planeIdx_surj img hi
    exact ⟨y, hy, (mem_rowWrites img y _).mpr ⟨c, x, hc, hx, rfl⟩⟩
  · intro y1 y2 hy1 hy2 hne i h1 h2
    obtain ⟨c1, x1, hc1, hx1, rfl⟩ := (mem_rowWrites img y1 i).mp h1
    obtain ⟨c2, x2, hc2, hx2, heq⟩ := (mem_rowWrites img y2 _).mp h2
    have := planeIdx_inj img hc1 hy1 hx1 hc2 hy2 hx2 heq
    omega
  · intro sizes hsum
    rw [runChunks_eq, Nat.zero_add, hsum, preprocess]

theorem row_partition_equiv_sequential_witness :
    (2 ∉ rowWrites imgW 1) ∧
    runChunks imgW meanW scaleW 0 [1, 1]
        (List.replicate (3 * imgW.height * imgW.width) 0) =
      preprocess imgW meanW scaleW := by
  refine ⟨?_, ?_⟩
  · exact (row_partition_equiv_sequential imgW meanW scaleW).2.1 0 1
      (by decide) (by decide) (by decide) 2 (by decide)
  · exact (row_partition_equiv_sequential imgW meanW scaleW).2.2 [1, 1]
      (by decide)

/-- Claim C3 (code slip, `GetImageDimensions` modelled from the spec): with
the builtin `ResNet269-v2.yml` manifest, whose dimensions list is the
3-element `[channels, height, width] = [3, 224, 224]`, the resize call of
`Preprocess` reads `imageDims[2]` and `imageDims[3]`: index 2 is the width
slot and index 3 is out of range (a Go runtime panic), so the resize
arguments are not the configured (height, width). -/
theorem resize_args_out_of_range_on_builtin_manifest :
    getImageDimensions resnet269Manifest = some [3, 224, 224] ∧
    resizeArgs [3, 224, 224] = (some 224, none) ∧
    ([3, 224, 224] : List Int).length = 3 :=
  ⟨rfl, rfl, rfl⟩

/-- Claim C5: `Download` performs no checksum verification: for any two
manifests that differ only in their `graph_checksum`, `weights_checksum` and
`features_checksum` fields, `Download` makes the same download calls and
returns the same result under every downloader behaviour, so its success
never depends on downloaded content matching those fields. -/
theorem download_ignores_checksums
    (dl : String → String → Except String String) (m : ManifestPaths)
    (gc wc fc : String) :
    download dl
        { m with graphChecksum := gc, weightsChecksum := wc,
                 featuresChecksum := fc } =
      download dl m := rfl

/-- Claim C7: `Download` attempts the graph, then the weights, then the
features file, in that order; the first download error is propagated upward
unchanged, without retrying and without attempting the remaining downloads;
nil is returned exactly when all three downloads succeed. -/
theorem download_order_and_first_error
    (dl : String → String → Except String String) (m : ManifestPaths) :
    (∀ e, dl m.graphUrl m.graphPath = .error e →
      download dl m = ([(m.graphUrl, m.graphPath)], some e)) ∧
    (∀ v e, dl m.graphUrl m.graphPath = .ok v →
      dl m.weightsUrl m.weightsPath = .error e →
      download dl m =
        ([(m.graphUrl, m.graphPath), (m.weightsUrl, m.weightsPath)], some e)) ∧
    (∀ v1 v2 e, dl m.graphUrl m.graphPath = .ok v1 →
      dl m.weightsUrl m.weightsPath = .ok v2 →
      dl m.featuresUrl m.featuresPath = .error e →
      download dl m =
        ([(m.graphUrl, m.graphPath), (m.weightsUrl, m.weightsPath),
          (m.featuresUrl, m.featuresPath)], some e)) ∧
    ((download dl m).2 = none ↔
      (∃ v, dl m.graphUrl m.graphPath = .ok v) ∧
      (∃ v, dl m.weightsUrl m.weightsPath = .ok v) ∧
      (∃ v, dl m.featuresUrl m.featuresPath = .ok v)) := by
  refine ⟨?_, ?_, ?_, ?_⟩
  · intro e he; simp [download, he]
  · intro v e hv he; simp [download, hv, he]
  · intro v1 v2 e h1 h2 h3; simp [download, h1, h2, h3]
  · rcases hg : dl m.graphUrl m.graphPath with eg | vg
    · simp [download, hg]
    · rcases hw : dl m.weightsUrl m.weightsPath with ew | vw
      · simp [download, hg, hw]
      · rcases hf : dl m.featuresUrl m.featuresPath with ef | vf
        · simp [download, hg, hw, hf]
        · simp [download, hg, hw, hf]

theorem download_order_and_first_error_witness :
    download dlW mPathsW = ([("gu", "gp"), ("wu", "wp")], some "boom") :=
  (download_order_and_first_error dlW mPathsW).2.1 "" "boom" rfl rfl

/-- Claim C8: `New` returns an error exactly when the manifest's input list
does not have exactly one entry or the first input's lowercased type is not
"image", with `Load` itself failing only when framework resolution or
work-directory computation fails; on a single-input image manifest with
resolvable framework and work directory it returns a predictor and a nil
error. -/
theorem new_error_conditions (rf : Except String Framework)
    (wd : Except String String) (m : ModelManifest) :
    (m.inputs.length ≠ 1 →
      new rf wd m = .error "number of inputs not supported") ∧
    (∀ inp, m.inputs = [inp] → strToLower inp.typ ≠ "image" →
      new rf wd m = .error "input type not supported") ∧
    (∀ inp e, m.inputs = [inp] → strToLower inp.typ = "image" →
      rf = .error e → new rf wd m = .error e) ∧
    (∀ inp fw e, m.inputs = [inp] → strToLower inp.typ = "image" →
      rf = .ok fw → wd = .error e → new rf wd m = .error e) ∧
    (∀ inp fw dir, m.inputs = [inp] → strToLower inp.typ = "image" →
      rf = .ok fw → wd = .ok dir →
      new rf wd m = .ok { framework := fw, model := m, workDir := dir }) := by
  obtain ⟨inputs⟩ := m
  refine ⟨?_, ?_, ?_, ?_, ?_⟩
  · intro h
    simp only [new]
    rw [dif_neg h]
  · rintro inp rfl h
    simp [new, h]
  · rintro inp e rfl h rfl
    simp [new, load, h]
  · rintro inp fw e rfl h rfl rfl
    simp [new, load, h]
  · rintro inp fw dir rfl h rfl rfl
    simp [new, load, h]

theorem new_error_conditions_witness :
    new (.ok fwW) (.ok "workdir") manifestW =
      .ok { framework := fwW, model := manifestW, workDir := "workdir" } :=
  (new_error_conditions (.ok fwW) (.ok "workdir") manifestW).2.2.2.2 inputW fwW
    "workdir" rfl (by decide) rfl rfl

theorem lookupFeature_isSome_iff (features : List String) (i : Int) :
    (lookupFeature features i).isSome = true ↔
      0 ≤ i ∧ i < (features.length : Int) := by
  rw [lookupFeature]
  split
  · rename_i h
    simp only [Option.isSome_some, true_iff]
    omega
  · rename_i h
    simp only [Option.isSome_none, Bool.false_eq_true, false_iff]
    omega

theorem lookupFeature_eq_some {features : List String} {i : Int} {nm : String}
    (h : lookupFeature features i = some nm) :
    0 ≤ i ∧ features[i.toNat]? = some nm := by
  rw [lookupFeature] at h
  split at h
  · rename_i hcond
    simp only [Option.some.injEq] at h
    refine ⟨hcond.1, ?_⟩
    rw [List.getElem?_eq_getElem hcond.2, ← h]
    simp [List.get_eq_getElem]
  · exact absurd h (by simp)

theorem loadFeatures_eq (lines : List String) : loadFeatures lines = lines := by
  have haux : ∀ (l acc : List String),
      l.foldl (fun a line => a ++ [line]) acc = acc ++ l := by
    intro l
    induction l with
    | nil => intro acc; simp
    | cons a t ih => intro acc; simp [ih]
  simpa using haux lines []

/-- Claim C9: `Predict` indexes the label list by the raw class index with no
bounds check: all label lookups `p.features[pred.Index]` are in range exactly
when every raw class index is non-negative and strictly below the number of
lines of the features file; any prediction violating this makes the lookup
out of range (a panic, modelled as `none`). -/
theorem predict_label_lookup_in_range_iff (features : List String)
    (preds : List RawPrediction) :
    (buildFeatures features preds).isSome = true ↔
      ∀ p ∈ preds, 0 ≤ p.index ∧ p.index < (features.length : Int) := by
  induction preds with
  | nil => simp [buildFeatures]
  | cons pred rest ih =>
    rcases h : lookupFeature features pred.index with _ | nm
    · have hv : ¬(0 ≤ pred.index ∧ pred.index < (features.length : Int)) := by
        intro hcon
        have h2 := (lookupFeature_isSome_iff features pred.index).mpr hcon
        rw [h] at h2
        simp at h2
      simp only [buildFeatures, h, Option.isSome_none, Bool.false_eq_true,
        false_iff]
      intro hall
      exact hv (hall pred (List.mem_cons_self _ _))
    · have hv : 0 ≤ pred.index ∧ pred.index < (features.length : Int) :=
        (lookupFeature_isSome_iff features pred.index).mp (by rw [h]; rfl)
      rcases hr : buildFeatures features rest with _ | out
      · rw [hr] at ih
        simp only [Option.isSome_none, Bool.false_eq_true, false_iff] at ih
        simp only [buildFeatures, h, hr, Option.isSome_none,
          Bool.false_eq_true, false_iff]
        intro hall
        exact ih fun p hp => hall p (List.mem_cons_of_mem _ hp)
      · rw [hr] at ih
        simp only [Option.isSome_some, true_iff] at ih
        simp only [buildFeatures, h, hr, Option.isSome_some, true_iff]
        intro p hp
        rcases List.mem_cons.mp hp with rfl | hp2
        · exact hv
        · exact ih p hp2

theorem predict_label_lookup_in_range_iff_witness :
    (buildFeatures ["tench", "goldfish"]
      [{ index := 1, probability := 1 }]).isSome = true :=
  (predict_label_lookup_in_range_iff ["tench", "goldfish"]
    [{ index := 1, probability := 1 }]).mpr (by decide)

/-- Claim C4: on success, `Predict` returns exactly one `PredictionFeature`
per raw prediction, in the same order, each with `Index` equal to the raw
class index, `Probability` the raw probability unchanged, and `Name` the line
of the downloaded label file whose zero-based line number equals that class
index — the label list being the file's lines in file order, as built by
`loadPredictor`. -/
theorem predict_feature_mapping :
    (∀ env p s lines, env.featuresFileLines = .ok lines → p.predictor = none →
      loadPredictor env p = (s, none) → s.features = lines) ∧
    (∀ (lines : List String) (preds : List RawPrediction)
        (out : List PredictionFeature),
      buildFeatures lines preds = some out →
      out.length = preds.length ∧
      ∀ i, i < preds.length →
        ∃ pr f, preds[i]? = some pr ∧ out[i]? = some f ∧
          f.index = pr.index ∧ f.probability = pr.probability ∧
          0 ≤ pr.index ∧ lines[pr.index.toNat]? = some f.name) := by
  constructor
  · intro env p s lines hf hp hlp
    rcases hd : env.imageDimensions with e | dims
    · simp [loadPredictor, hp, hf, hd, Prod.mk.injEq] at hlp
    · rcases hn : env.caffe2New with e2 | np
      · simp [loadPredictor, hp, hf, hd, hn, Prod.mk.injEq] at hlp
      · simp only [loadPredictor, hp, hf, hd, hn, Option.isSome_none,
          Bool.false_eq_true, if_false, Prod.mk.injEq, and_true] at hlp
        subst hlp
        simp [loadFeatures_eq]
  · intro lines preds
    induction preds with
    | nil =>
      intro out h
      simp only [buildFeatures, Option.some.injEq] at h
      subst h
      exact ⟨rfl, fun i hi => absurd hi (by simp)⟩
    | cons pred rest ih =>
      intro out h
      rcases hl : lookupFeature lines pred.index with _ | nm
      · simp [buildFeatures, hl] at h
      · rcases hr : buildFeatures lines rest with _ | out2
        · simp [buildFeatures, hl, hr] at h
        · simp only [buildFeatures, hl, hr, Option.some.injEq] at h
          subst h
          obtain ⟨hlen, hrest⟩ := ih out2 hr
          have hlk := lookupFeature_eq_some hl
          refine ⟨by simp [hlen], ?_⟩
          intro i hi
          cases i with
          | zero =>
            refine ⟨pred,
              { index := pred.index, name := nm
              , probability := pred.probability },
              ?_, ?_, rfl, rfl, hlk.1, hlk.2⟩
            · simp
            · simp
          | succ n =>
            have hn : n < rest.length := by simp at hi; omega
            obtain ⟨pr, f, h1, h2, h3, h4, h5, h6⟩ := hrest n hn
            exact ⟨pr, f, by simpa using h1, by simpa using h2, h3, h4, h5, h6⟩

theorem predict_feature_mapping_witness :
    ({ features := ["tench", "goldfish"], predictor := some { handle := 7 }
     , inputDims := [3, 224, 224] } : PredictorState).features =
        ["tench", "goldfish"] ∧
    ([{ index := 1, name := "goldfish", probability := 1 }] :
        List PredictionFeature).length =
      ([{ index := 1, probability := 1 }] : List RawPrediction).length :=
  ⟨predict_feature_mapping.1 envW pFreshW _ ["tench", "goldfish"] rfl rfl rfl,
   (predict_feature_mapping.2 ["tench", "goldfish"]
      [{ index := 1, probability := 1 }]
      [{ index := 1, name := "goldfish", probability := 1 }] (by decide)).1⟩

/-- Claim C10: `loadPredictor` is idempotent and the native session is
created at most once: whenever `p.predictor` is already non-nil it returns
nil immediately with features, input dimensions and predictor unchanged, and
after any successful call every further call (under any environment) leaves
the state unchanged, so repeated `Predict` calls reuse the same label list
and native predictor. -/
theorem loadPredictor_idempotent :
    (∀ env p, p.predictor.isSome = true → loadPredictor env p = (p, none)) ∧
    (∀ env p s, loadPredictor env p = (s, none) →
      ∀ env2, loadPredictor env2 s = (s, none)) := by
  have hfst : ∀ env p, p.predictor.isSome = true →
      loadPredictor env p = (p, none) := by
    intro env p h
    rw [loadPredictor, if_pos h]
  refine ⟨hfst, ?_⟩
  intro env p s h env2
  refine hfst env2 s ?_
  by_cases hp : p.predictor.isSome = true
  · rw [hfst env p hp] at h
    obtain ⟨rfl, -⟩ : p = s ∧ (none : Option String) = none := by
      simpa [Prod.mk.injEq] using h
    exact hp
  · rcases hf : env.featuresFileLines with e | lines
    · simp [loadPredictor, hp, hf, Prod.mk.injEq] at h
    · rcases hd : env.imageDimensions with e | dims
      · simp [loadPredictor, hp, hf, hd, Prod.mk.injEq] at h
      · rcases hn : env.caffe2New with e | np
        · simp [loadPredictor, hp, hf, hd, hn, Prod.mk.injEq] at h
        · simp only [loadPredictor, hp, hf, hd, hn, Option.isSome_none,
            Bool.false_eq_true, if_false, Prod.mk.injEq, and_true] at h
          subst h
          simp

theorem loadPredictor_idempotent_witness :
    loadPredictor envW pLoadedW = (pLoadedW, none) :=
  loadPredictor_idempotent.1 envW pLoadedW rfl

end Caffe2Predict
